import Mathlib

/-!
Verification of the SSD1306Fnt font converter (`ssd1306fnt.py`) against its
natural-language specification.

The embedding models bitmaps as `List (List Nat)` (row-major, one number per
pixel, `1` = lit), mirroring the Python lists of lists.  Python integer values
are `Nat` (all quantities in the converter are non-negative) except codepoint
offsets, which can conceptually be negative and are modelled as `Int`.
Python `list[i]` indexing is modelled by `List.getD` where every call site is
in range under the stated hypotheses, and by the explicit `py_get`
(`Except`-valued) where a claim is about the presence or absence of runtime
errors.  Characters are modelled by the big-endian integer formed from their
UTF-8 bytes (the only view of a character the converter's grouping code uses).
-/

/-- Python list indexing `l[i]`: the element when in range, an `IndexError`
otherwise. -/
def py_get {α : Type} (l : List α) (i : Nat) : Except String α :=
  match l[i]? with
  | some a => Except.ok a
  | none => Except.error "IndexError"

/-- Monadic map over `Except`, modelling a Python list comprehension whose
body may raise: the first raise propagates, otherwise the list of results. -/
def py_mapE {α β : Type} (f : α → Except String β) : List α → Except String (List β)
  | [] => Except.ok []
  | x :: xs => do
    let y ← f x
    let ys ← py_mapE f xs
    Except.ok (y :: ys)

/-- Python `min(items)` for a non-empty list (the empty case never occurs at
the call sites modelled here; it is given the junk value 0). -/
def py_min : List Nat → Nat
  | [] => 0
  | h :: t => t.foldl Nat.min h

/-- Python `max(items)` for a non-empty list (the empty case never occurs at
the call sites modelled here; it is given the junk value 0). -/
def py_max : List Nat → Nat
  | [] => 0
  | h :: t => t.foldl Nat.max h

/-- Source constant `ssd1306_page_size = 8`. -/
def ssd1306_page_size : Nat := 8

/-- Source `glyph_insert_empty_cols`: prepend `columns_left` and append
`columns_right` zero pixels to every row. -/
def glyph_insert_empty_cols (glyph_2d : List (List Nat)) (columns_left columns_right : Nat) :
    List (List Nat) :=
  glyph_2d.map (fun glyph_row =>
    List.replicate columns_left 0 ++ glyph_row ++ List.replicate columns_right 0)

/-- Source `append_height`: raise if the glyph has no rows, otherwise prepend
`target_height - len(glyph_2d)` all-zero rows of the first row's width.  A
non-positive Python difference yields an empty appendix, exactly as the `Nat`
subtraction does here. -/
def append_height (glyph_2d : List (List Nat)) (target_height : Nat) :
    Except String (List (List Nat)) :=
  if glyph_2d.length < 1 then
    Except.error "Glyph is empty!"
  else
    let count_to_append := target_height - glyph_2d.length
    let width := (glyph_2d.headD []).length
    let appendix := List.replicate count_to_append (List.replicate width 0)
    Except.ok (appendix ++ glyph_2d)

/-- Source `append_width`: raise on an empty glyph, a zero-width glyph, or a
target narrower than the glyph (`width_diff < 0` in the Python); return the
glyph unchanged when the widths agree; otherwise centre it with
`width_diff // 2` zero columns on the left and the rest on the right. -/
def append_width (glyph_2d : List (List Nat)) (target_width : Nat) :
    Except String (List (List Nat)) :=
  if glyph_2d.length < 1 then
    Except.error "Glyph is empty!"
  else
    let glp_width := (glyph_2d.headD []).length
    if glp_width < 1 then
      Except.error "Glyph has no width!"
    else if target_width < glp_width then
      Except.error "Glyph has bigger width than it should be appended!"
    else if target_width = glp_width then
      Except.ok glyph_2d
    else
      let width_diff := target_width - glp_width
      let diff_start := width_diff / 2
      let diff_end := width_diff - diff_start
      Except.ok (glyph_insert_empty_cols glyph_2d diff_start diff_end)

/-- Local `glyph_rotated` of `convert_to_ssd1306_format`: the column-major
transpose `[[glyph_2d[y][x] for y in range(g_height)] for x in range(g_width)]`. -/
def glyph_rotated (glyph_2d : List (List Nat)) (g_width g_height : Nat) : List (List Nat) :=
  (List.range g_width).map (fun x =>
    (List.range g_height).map (fun y => (glyph_2d.getD y []).getD x 0))

/-- Local `take_page` of `convert_to_ssd1306_format`: the slice
`glyph_rotated[col][page*8 : page*8+8]`. -/
def take_page (rot : List (List Nat)) (col page : Nat) : List Nat :=
  let page_start := page * ssd1306_page_size
  ((rot.getD col []).drop page_start).take ssd1306_page_size

/-- The paged glyph of `convert_to_ssd1306_format`:
`[[take_page(col, page) for page in range(page_per_col)] for col in range(g_width)]`. -/
def glyph_paged (rot : List (List Nat)) (g_width page_per_col : Nat) :
    List (List (List Nat)) :=
  (List.range g_width).map (fun col =>
    (List.range page_per_col).map (fun page => take_page rot col page))

/-- Local `get_pixel` of `convert_to_ssd1306_format`: `page[y] << y`. -/
def get_pixel (page : List Nat) (y : Nat) : Nat :=
  page.getD y 0 <<< y

/-- Local `build_page` of `convert_to_ssd1306_format`: OR together
`get_pixel(glyph_paged[col][page], row)` for every row of the page. -/
def build_page (paged : List (List (List Nat))) (page col : Nat) : Nat :=
  let pg := (paged.getD col []).getD page []
  let page_bin := (List.range pg.length).map (fun row => get_pixel pg row)
  page_bin.foldl (fun page_value page_pixel => page_value ||| page_pixel) 0

/-- Source `convert_to_ssd1306_format`: rotate, page, pack, and emit either
page-within-column (default) or column-within-page (`hor_mode`) order.  The
two nested `for` loops appending to `result` are rendered as `flatMap`/`map`. -/
def convert_to_ssd1306_format (glyph_2d : List (List Nat)) (g_width g_height : Nat)
    (hor_mode : Bool) : List Nat :=
  let rot := glyph_rotated glyph_2d g_width g_height
  let page_per_col := g_height / ssd1306_page_size
  let paged := glyph_paged rot g_width page_per_col
  if hor_mode then
    (List.range page_per_col).flatMap (fun page =>
      (List.range g_width).map (fun col => build_page paged page col))
  else
    (List.range g_width).flatMap (fun col =>
      (List.range page_per_col).map (fun page => build_page paged page col))

/-- The rotation step of `convert_to_ssd1306_format` with Python's raising
indexing made explicit: `glyph_2d[y][x]` raises `IndexError` when out of
range.  This is the only indexing in the conversion that can raise (the page
slices never do). -/
def glyph_rotatedE (glyph_2d : List (List Nat)) (g_width g_height : Nat) :
    Except String (List (List Nat)) :=
  py_mapE (fun x =>
    py_mapE (fun y => do
      let row ← py_get glyph_2d y
      py_get row x) (List.range g_height)) (List.range g_width)

/-- Source `convert_to_ssd1306_format` with raising indexing made explicit;
agrees with the total model whenever the bitmap covers the stated
dimensions. -/
def convert_to_ssd1306_formatE (glyph_2d : List (List Nat)) (g_width g_height : Nat)
    (hor_mode : Bool) : Except String (List Nat) := do
  let rot ← glyph_rotatedE glyph_2d g_width g_height
  let page_per_col := g_height / ssd1306_page_size
  let paged := glyph_paged rot g_width page_per_col
  if hor_mode then
    Except.ok ((List.range page_per_col).flatMap (fun page =>
      (List.range g_width).map (fun col => build_page paged page col)))
  else
    Except.ok ((List.range g_width).flatMap (fun col =>
      (List.range page_per_col).map (fun page => build_page paged page col)))

/-- The byte the codec produces for a given column and page, stated directly
on the row-major bitmap: OR over `y in 0..7` of `pixel[page*8+y][col] << y`. -/
def page_byte (glyph_2d : List (List Nat)) (col page : Nat) : Nat :=
  ((List.range 8).map (fun y => ((glyph_2d.getD (page * 8 + y) []).getD col 0) <<< y)).foldl
    (fun a b => a ||| b) 0

/-- Inverse transform of the packing, following the spec's layout description
(§4.2): pixel `(row, col)` is bit `row % 8` of the byte for column `col`,
page `row / 8`, located at `col * (height/8) + page` in column-major order and
at `page * width + col` in horizontal order. -/
def unpack_ssd1306 (data : List Nat) (width height : Nat) (hor_mode : Bool) :
    List (List Nat) :=
  (List.range height).map (fun row =>
    (List.range width).map (fun col =>
      let page := row / 8
      let b := if hor_mode then data.getD (page * width + col) 0
               else data.getD (col * (height / 8) + page) 0
      if Nat.testBit b (row % 8) then 1 else 0))

/-- Source `utf_8_encode`: on the chosen representation of characters (the
big-endian integer of the UTF-8 bytes) this is the identity. -/
def utf_8_encode (char : Nat) : Nat := char

/-- Model of `itertools.groupby(l, key)` as consumed by `group_chars`:
maximal runs of consecutive elements with equal key, each tagged with that
key, in input order. -/
def itertools_groupby {α β : Type} [BEq β] (key : α → β) : List α → List (β × List α)
  | [] => []
  | x :: xs =>
    match itertools_groupby key xs with
    | [] => [(key x, [x])]
    | (k, g) :: rest =>
      if key x == k then (k, x :: g) :: rest else (key x, [x]) :: (k, g) :: rest

/-- Source `group_chars`: pair each character with
`utf_8_encode(chars[index]) - index`, group consecutive equal offsets, and
keep the offset with the member characters of each group. -/
def group_chars (chars : List Nat) : List (Int × List Nat) :=
  let calculate_offset := fun index =>
    (chars.getD index 0, (utf_8_encode (chars.getD index 0) : Int) - (index : Int))
  let chars_offset := (List.range chars.length).map calculate_offset
  let chars_grouped := itertools_groupby (fun x => x.2) chars_offset
  chars_grouped.map (fun g => (g.1, g.2.map (fun char => char.1)))

/-- Source `groups_reduce`: collapse each group to
`(offset, min(items), max(items))`. -/
def groups_reduce (groups : List (Int × List Nat)) : List (Int × Nat × Nat) :=
  groups.map (fun group => (group.1, py_min group.2, py_max group.2))

/-- Source constant `c_lookup_func_arg_name`. -/
def c_lookup_func_arg_name : String := "utf8_code"

/-- Source `c_gen_group_if`: one C `if` statement per reduced group — an
equality test when the group is a single codepoint, a two-sided range test
otherwise. -/
def c_gen_group_if (group : Int × Nat × Nat) (arg_name : String) : String :=
  let offset := group.1
  let item_min := utf_8_encode group.2.1
  let item_max := utf_8_encode group.2.2
  if item_min == item_max then
    s!"if ({item_min} == {arg_name}) " ++ "\x7b " ++ s!"return {arg_name} - {offset};" ++ " \x7d;"
  else
    s!"if ({item_min} <= {arg_name} && {arg_name} <= {item_max}) " ++ "\x7b "
      ++ s!"return {arg_name} - {offset};" ++ " \x7d;"

/-- Python `str.lower()` on ASCII identifiers: lowercase every character.
(`String.toLower` itself is not kernel-reducible, so the character map is
spelled out.) -/
def py_lower (s : String) : String := String.mk (s.data.map Char.toLower)

/-- Source `c_src_write_lookup_func`: the full text written for the generated
index-lookup function (the sequence of `fout.write` calls concatenated). -/
def c_src_write_lookup_func (cname : String) (reduced_groups : List (Int × Nat × Nat)) :
    String :=
  let lower := py_lower cname
  s!"static uint32_t ssd1306_{lower}_get_glyph_index"
    ++ s!"(uint32_t {c_lookup_func_arg_name})"
    ++ " \x7b\n"
    ++ String.join (reduced_groups.map (fun group =>
        "\t" ++ c_gen_group_if group c_lookup_func_arg_name ++ "\n"))
    ++ "\treturn 0;\n\x7d\n\n"

/-- Modelled from the spec: the run-time meaning of the generated C lookup
function (the C semantics of the emitted text is outside the repository).
Each group contributes one guarded `return x - offset`; `none` is a fall
through every guard to the trailing `return 0`.  For a singleton group the
emitted `min == x` test and the general `min <= x && x <= max` test coincide. -/
def lookup_func_semantics : List (Int × Nat × Nat) → Nat → Option Int
  | [], _ => none
  | (offset, mn, mx) :: rest, x =>
    if mn ≤ x ∧ x ≤ mx then some ((x : Int) - offset) else lookup_func_semantics rest x

/-- The offset pairing of `group_chars` generalised to an arbitrary base index
`k` (the source uses `k = 0`): element `i` is paired with `c[i] - (k + i)`.
The generalisation is what makes induction on the character list possible. -/
def chars_offset_from (k : Nat) (chars : List Nat) : List (Nat × Int) :=
  (List.range chars.length).map (fun index =>
    (chars.getD index 0, (chars.getD index 0 : Int) - ((k + index : Nat) : Int)))

/-- Modelled from the spec (§4.3): the partition of a codepoint sequence into
maximal runs of consecutive values — on a strictly ascending sequence these
are exactly the maximal runs of equal `offset[i] = c[i] - i`. -/
def consecutive_runs : List Nat → List (List Nat)
  | [] => []
  | x :: xs =>
    match consecutive_runs xs with
    | [] => [[x]]
    | [] :: rest => [x] :: [] :: rest
    | (y :: g) :: rest =>
      if x + 1 = y then (x :: y :: g) :: rest else [x] :: (y :: g) :: rest

/-- Each run paired with its offset: a run starting at table index `k` whose
first codepoint is `v` has offset `v - k`; subsequent runs start `length`
positions later. -/
def runs_with_offsets (k : Nat) : List (List Nat) → List (Int × List Nat)
  | [] => []
  | r :: rest =>
    (((r.headD 0 : Int) - (k : Int)), r) :: runs_with_offsets (k + r.length) rest

/-- Modelled from the spec (§4.3): each maximal run collapses to
`(offset, min(run), max(run))`; for an ascending run the minimum and maximum
are its first and last elements. -/
def collapse_runs (k : Nat) : List (List Nat) → List (Int × Nat × Nat)
  | [] => []
  | r :: rest =>
    (((r.headD 0 : Int) - (k : Nat)), r.headD 0, r.getLastD 0) :: collapse_runs (k + r.length) rest

/-! ### Indexing lemmas -/

lemma getD_range_map {α : Type} (f : Nat → α) (n i : Nat) (d : α) (h : i < n) :
    ((List.range n).map f).getD i d = f i := by
  simp [List.getD, List.getElem?_map, List.getElem?_range, h]

lemma flatMap_range_map_length {α : Type} (f : Nat → Nat → α) (m n : Nat) :
    ((List.range m).flatMap (fun a => (List.range n).map (f a))).length = m * n := by
  induction m with
  | zero => simp
  | succ m ih =>
    rw [List.range_succ, List.flatMap_append, List.length_append, ih]
    simp [Nat.succ_mul]

lemma flatMap_range_map_getElem {α : Type} (f : Nat → Nat → α) (m n i j : Nat)
    (hi : i < m) (hj : j < n) :
    ((List.range m).flatMap (fun a => (List.range n).map (f a)))[i * n + j]? = some (f i j) := by
  induction m with
  | zero => omega
  | succ m ih =>
    rw [List.range_succ, List.flatMap_append]
    rw [List.getElem?_append]
    rw [flatMap_range_map_length]
    by_cases hcase : i < m
    · have hbound : i * n + j < m * n := by
        have hstep : (i + 1) * n = i * n + n := by ring
        have hle : (i + 1) * n ≤ m * n := Nat.mul_le_mul_right n hcase
        omega
      rw [if_pos hbound]
      exact ih hcase
    · have hi' : i = m := by omega
      subst hi'
      rw [if_neg (by omega)]
      have harith : i * n + j - i * n = j := by omega
      rw [harith]
      simp [List.getElem?_map, List.getElem?_range, hj]

lemma getD_out_of_range {α : Type} (l : List α) (i : Nat) (d : α) (h : l.length ≤ i) :
    l.getD i d = d := by
  rw [List.getD_eq_getElem?_getD, List.getElem?_eq_none (by omega)]
  rfl

lemma getD_mem_of_lt {α : Type} (l : List α) (i : Nat) (d : α) (h : i < l.length) :
    l.getD i d ∈ l := by
  rw [List.getD_eq_getElem l d h]
  exact List.getElem_mem h

lemma bitmap_getD_le_one (g : List (List Nat)) (hbits : ∀ row ∈ g, ∀ b ∈ row, b ≤ 1)
    (i j : Nat) : (g.getD i []).getD j 0 ≤ 1 := by
  by_cases hi : i < g.length
  · by_cases hj : j < (g.getD i []).length
    · exact hbits _ (getD_mem_of_lt g i [] hi) _ (getD_mem_of_lt _ j 0 hj)
    · rw [getD_out_of_range _ j 0 (by omega)]
      omega
  · rw [getD_out_of_range g i [] (by omega)]
    simp [List.getD]

/-! ### The codec's per-page byte -/

lemma take_page_eq (g : List (List Nat)) (w h col page : Nat) (hcol : col < w)
    (hpage8 : page * 8 + 8 ≤ h) :
    take_page (glyph_rotated g w h) col page =
      (List.range 8).map (fun i => (g.getD (page * 8 + i) []).getD col 0) := by
  rw [take_page, glyph_rotated, getD_range_map _ _ _ _ hcol]
  apply List.ext_getElem?
  intro i
  by_cases hi : i < 8
  · rw [List.getElem?_take_of_lt (by simpa [ssd1306_page_size] using hi)]
    rw [List.getElem?_drop]
    have h2 : page * ssd1306_page_size + i = page * 8 + i := by
      simp [ssd1306_page_size]
    have h1 : page * 8 + i < h := by omega
    rw [h2]
    simp only [List.getElem?_map]
    rw [List.getElem?_range h1, List.getElem?_range hi]
    rfl
  · have hlen1 : (((List.range h).map fun y => (g.getD y []).getD col 0).drop
        (page * ssd1306_page_size) |>.take ssd1306_page_size).length ≤ i := by
      simp only [List.length_take, List.length_drop, List.length_map, List.length_range,
        ssd1306_page_size]
      omega
    rw [List.getElem?_eq_none hlen1, List.getElem?_eq_none (by simpa using hi)]

lemma build_page_eq_page_byte (g : List (List Nat)) (w h col page : Nat)
    (hcol : col < w) (hpage : page < h / 8) :
    build_page (glyph_paged (glyph_rotated g w h) w (h / 8)) page col = page_byte g col page := by
  have hmul : (page + 1) * 8 ≤ (h / 8) * 8 := Nat.mul_le_mul_right 8 hpage
  have hdiv : h / 8 * 8 ≤ h := Nat.div_mul_le_self h 8
  have hpage8 : page * 8 + 8 ≤ h := by omega
  rw [build_page, glyph_paged, getD_range_map _ _ _ _ hcol, getD_range_map _ _ _ _ hpage,
    take_page_eq g w h col page hcol hpage8]
  simp only [List.length_map, List.length_range]
  rw [page_byte]
  congr 1


/-! ### Normal form of the conversion: one byte per (column, page) -/

lemma convert_false_eq (g : List (List Nat)) (w h : Nat) :
    convert_to_ssd1306_format g w h false =
      (List.range w).flatMap (fun col =>
        (List.range (h / 8)).map (fun page => page_byte g col page)) := by
  rw [convert_to_ssd1306_format]
  simp only [Bool.false_eq_true, if_false, ssd1306_page_size]
  apply List.flatMap_congr
  intro col hcol
  apply List.map_congr_left
  intro page hpage
  exact build_page_eq_page_byte g w h col page (List.mem_range.mp hcol) (List.mem_range.mp hpage)

lemma convert_true_eq (g : List (List Nat)) (w h : Nat) :
    convert_to_ssd1306_format g w h true =
      (List.range (h / 8)).flatMap (fun page =>
        (List.range w).map (fun col => page_byte g col page)) := by
  rw [convert_to_ssd1306_format]
  simp only [if_true, ssd1306_page_size]
  apply List.flatMap_congr
  intro page hpage
  apply List.map_congr_left
  intro col hcol
  exact build_page_eq_page_byte g w h col page (List.mem_range.mp hcol) (List.mem_range.mp hpage)

lemma convert_length (g : List (List Nat)) (w h : Nat) (m : Bool) :
    (convert_to_ssd1306_format g w h m).length = w * (h / 8) := by
  cases m
  · rw [convert_false_eq, flatMap_range_map_length]
  · rw [convert_true_eq, flatMap_range_map_length, Nat.mul_comm]

lemma convert_false_getD (g : List (List Nat)) (w h col page : Nat)
    (hcol : col < w) (hpage : page < h / 8) :
    (convert_to_ssd1306_format g w h false).getD (col * (h / 8) + page) 0 =
      page_byte g col page := by
  rw [convert_false_eq, List.getD_eq_getElem?_getD,
    flatMap_range_map_getElem _ w (h / 8) col page hcol hpage]
  rfl

lemma convert_true_getD (g : List (List Nat)) (w h col page : Nat)
    (hcol : col < w) (hpage : page < h / 8) :
    (convert_to_ssd1306_format g w h true).getD (page * w + col) 0 =
      page_byte g col page := by
  rw [convert_true_eq, List.getD_eq_getElem?_getD,
    flatMap_range_map_getElem _ (h / 8) w page col hpage hcol]
  rfl

/-! ### Bit-level characterisation of a packed byte -/

lemma testBit_foldl_or (l : List Nat) (a i : Nat) :
    Nat.testBit (l.foldl (fun x y => x ||| y) a) i =
      (Nat.testBit a i || l.any (fun x => Nat.testBit x i)) := by
  induction l generalizing a with
  | nil => simp
  | cons x xs ih => simp [List.foldl_cons, ih, Nat.testBit_or, Bool.or_assoc]

lemma testBit_le_one (b k : Nat) (hb : b ≤ 1) : Nat.testBit b k = true ↔ b = 1 ∧ k = 0 := by
  interval_cases b
  · simp [Nat.zero_testBit]
  · cases k with
    | zero => simp
    | succ k =>
      simp [Nat.testBit_add_one]

lemma page_byte_testBit (g : List (List Nat)) (col page y : Nat)
    (hbits : ∀ i j : Nat, (g.getD i []).getD j 0 ≤ 1) :
    (Nat.testBit (page_byte g col page) y = true) ↔
      (y < 8 ∧ (g.getD (page * 8 + y) []).getD col 0 = 1) := by
  rw [page_byte, testBit_foldl_or]
  simp only [Nat.zero_testBit, Bool.false_or, List.any_map, List.any_eq_true]
  constructor
  · rintro ⟨x, hx, hpx⟩
    have hx8 : x < 8 := List.mem_range.mp hx
    simp only [Function.comp] at hpx
    rw [Nat.testBit_shiftLeft] at hpx
    simp only [Bool.and_eq_true, decide_eq_true_eq, ge_iff_le] at hpx
    obtain ⟨hxy, hbit⟩ := hpx
    rcases (testBit_le_one _ _ (hbits (page * 8 + x) col)).mp hbit with ⟨hone, hzero⟩
    have hyx : y = x := by omega
    subst hyx
    exact ⟨hx8, hone⟩
  · rintro ⟨hy8, hpix⟩
    refine ⟨y, List.mem_range.mpr hy8, ?_⟩
    simp only [Function.comp]
    rw [Nat.testBit_shiftLeft, Nat.sub_self, hpix]
    simp

/-! ### The raising model agrees with the total model on covered bitmaps -/

lemma py_get_ok {α : Type} (l : List α) (i : Nat) (d : α) (h : i < l.length) :
    py_get l i = Except.ok (l.getD i d) := by
  rw [py_get, List.getD_eq_getElem?_getD, List.getElem?_eq_getElem h]
  rfl

lemma py_mapE_ok {α β : Type} (f : α → Except String β) (g : α → β) (l : List α)
    (h : ∀ a ∈ l, f a = Except.ok (g a)) : py_mapE f l = Except.ok (l.map g) := by
  induction l with
  | nil => rfl
  | cons x xs ih =>
    rw [py_mapE, h x (List.mem_cons_self x xs), ih (fun a ha => h a (List.mem_cons_of_mem x ha))]
    rfl

lemma glyph_rotatedE_ok (g : List (List Nat)) (w h : Nat) (hlen : h ≤ g.length)
    (hrows : ∀ row ∈ g, w ≤ row.length) :
    glyph_rotatedE g w h = Except.ok (glyph_rotated g w h) := by
  rw [glyph_rotatedE, glyph_rotated]
  apply py_mapE_ok
  intro x hx
  apply py_mapE_ok
  intro y hy
  have hy' : y < g.length := by
    have := List.mem_range.mp hy
    omega
  rw [py_get_ok g y [] hy']
  have hxlt : x < (g.getD y []).length := by
    have hmem : g.getD y [] ∈ g := getD_mem_of_lt g y [] hy'
    have := hrows _ hmem
    have := List.mem_range.mp hx
    omega
  rw [show (do
      let row ← Except.ok (g.getD y [])
      py_get row x : Except String Nat) = py_get (g.getD y []) x from rfl]
  exact py_get_ok _ x 0 hxlt

lemma convertE_ok (g : List (List Nat)) (w h : Nat) (m : Bool) (hlen : h ≤ g.length)
    (hrows : ∀ row ∈ g, w ≤ row.length) :
    convert_to_ssd1306_formatE g w h m =
      Except.ok (convert_to_ssd1306_format g w h m) := by
  rw [convert_to_ssd1306_formatE, convert_to_ssd1306_format,
    glyph_rotatedE_ok g w h hlen hrows]
  cases m <;> rfl

/-! ### Rows below the last full page never influence the output -/

lemma page_byte_agree (g g' : List (List Nat)) (h col page : Nat)
    (htr : g.take (8 * (h / 8)) = g'.take (8 * (h / 8))) (hpage : page < h / 8) :
    page_byte g col page = page_byte g' col page := by
  rw [page_byte, page_byte]
  congr 1
  apply List.map_congr_left
  intro y hy
  have hy8 : y < 8 := List.mem_range.mp hy
  have hmul : (page + 1) * 8 ≤ (h / 8) * 8 := Nat.mul_le_mul_right 8 hpage
  have hidx : page * 8 + y < 8 * (h / 8) := by omega
  have hgetD : g.getD (page * 8 + y) [] = g'.getD (page * 8 + y) [] := by
    have h1 : g[page * 8 + y]? = (g.take (8 * (h / 8)))[page * 8 + y]? :=
      (List.getElem?_take_of_lt hidx).symm
    have h2 : g'[page * 8 + y]? = (g'.take (8 * (h / 8)))[page * 8 + y]? :=
      (List.getElem?_take_of_lt hidx).symm
    rw [List.getD_eq_getElem?_getD, List.getD_eq_getElem?_getD, h1, h2, htr]
  rw [hgetD]

lemma convert_agree (g g' : List (List Nat)) (w h : Nat) (m : Bool)
    (htr : g.take (8 * (h / 8)) = g'.take (8 * (h / 8))) :
    convert_to_ssd1306_format g w h m = convert_to_ssd1306_format g' w h m := by
  cases m
  · rw [convert_false_eq, convert_false_eq]
    apply List.flatMap_congr
    intro col hcol
    apply List.map_congr_left
    intro page hpage
    exact page_byte_agree g g' h col page htr (List.mem_range.mp hpage)
  · rw [convert_true_eq, convert_true_eq]
    apply List.flatMap_congr
    intro page hpage
    apply List.map_congr_left
    intro col hcol
    exact page_byte_agree g g' h col page htr (List.mem_range.mp hpage)

/-! ### Unpacking inverts packing -/

lemma ite_testBit_eq_pix (t : Bool) (pix : Nat) (hle : pix ≤ 1) (hiff : t = true ↔ pix = 1) :
    (if t then 1 else 0) = pix := by
  cases t
  · have hne : pix ≠ 1 := fun hp => by
      have := hiff.mpr hp
      simp at this
    simp only [Bool.false_eq_true, if_false]
    omega
  · exact (hiff.mp rfl).symm

lemma page_byte_testBit_row (g : List (List Nat)) (r c : Nat)
    (hbits : ∀ i j : Nat, (g.getD i []).getD j 0 ≤ 1) :
    (Nat.testBit (page_byte g c (r / 8)) (r % 8) = true) ↔ (g.getD r []).getD c 0 = 1 := by
  rw [page_byte_testBit g c (r / 8) (r % 8) hbits]
  have h1 : r / 8 * 8 + r % 8 = r := by omega
  have h2 : r % 8 < 8 := Nat.mod_lt _ (by norm_num)
  rw [h1]
  simp [h2]

lemma unpack_convert (g : List (List Nat)) (w h : Nat) (m : Bool)
    (hlen : g.length = h) (hrows : ∀ row ∈ g, row.length = w)
    (hbits : ∀ row ∈ g, ∀ b ∈ row, b ≤ 1) (hmul : h % 8 = 0) :
    unpack_ssd1306 (convert_to_ssd1306_format g w h m) w h m = g := by
  have hble : ∀ i j : Nat, (g.getD i []).getD j 0 ≤ 1 := bitmap_getD_le_one g hbits
  apply List.ext_getElem?
  intro r
  rw [unpack_ssd1306, List.getElem?_map]
  by_cases hr : r < h
  · rw [List.getElem?_range hr]
    have hrg : r < g.length := by omega
    rw [List.getElem?_eq_getElem hrg]
    simp only [Option.map_some']
    congr 1
    apply List.ext_getElem?
    intro c
    rw [List.getElem?_map]
    by_cases hc : c < w
    · rw [List.getElem?_range hc]
      have hclen : c < (g[r]).length := by
        rw [hrows _ (List.getElem_mem hrg)]
        exact hc
      rw [List.getElem?_eq_getElem hclen]
      simp only [Option.map_some']
      congr 1
      have hpage : r / 8 < h / 8 := by omega
      have hbyte :
          (if m then
            (convert_to_ssd1306_format g w h m).getD (r / 8 * w + c) 0
          else
            (convert_to_ssd1306_format g w h m).getD (c * (h / 8) + r / 8) 0) =
            page_byte g c (r / 8) := by
        cases m
        · simpa using convert_false_getD g w h c (r / 8) hc hpage
        · simpa using convert_true_getD g w h c (r / 8) hc hpage
      have hpix : g[r][c] = (g.getD r []).getD c 0 := by
        rw [List.getD_eq_getElem g [] hrg, List.getD_eq_getElem (g[r]) 0 hclen]
      rw [hpix]
      cases m
      · simp only [Bool.false_eq_true, if_false] at hbyte ⊢
        rw [hbyte]
        exact ite_testBit_eq_pix _ _ (hble r c) (page_byte_testBit_row g r c hble)
      · simp only [if_true] at hbyte ⊢
        rw [hbyte]
        exact ite_testBit_eq_pix _ _ (hble r c) (page_byte_testBit_row g r c hble)
    · rw [List.getElem?_eq_none (by simpa using hc),
        List.getElem?_eq_none (by rw [hrows _ (List.getElem_mem hrg)]; omega)]
      rfl
  · rw [List.getElem?_eq_none (by simpa using hr), List.getElem?_eq_none (by omega)]
    rfl

/-! ### Character grouping: structural lemmas -/

lemma chars_offset_from_cons (k x : Nat) (xs : List Nat) :
    chars_offset_from k (x :: xs) =
      (x, (x : Int) - (k : Int)) :: chars_offset_from (k + 1) xs := by
  rw [chars_offset_from, chars_offset_from, List.length_cons, List.range_succ_eq_map,
    List.map_cons, List.map_map]
  refine congrArg₂ List.cons ?_ ?_
  · simp
  · apply List.map_congr_left
    intro i hi
    simp only [Function.comp, List.getD_cons_succ, Prod.mk.injEq, true_and]
    push_cast
    ring

lemma itertools_groupby_cons {α β : Type} [BEq β] [LawfulBEq β] (key : α → β) (a : α)
    (l : List α) :
    ∃ G R, itertools_groupby key (a :: l) = (key a, a :: G) :: R := by
  rw [itertools_groupby]
  rcases hgb : itertools_groupby key l with _ | ⟨⟨kk, grp⟩, rest⟩
  · exact ⟨[], [], rfl⟩
  · by_cases hbeq : (key a == kk) = true
    · refine ⟨grp, rest, ?_⟩
      dsimp only
      rw [if_pos hbeq]
      rw [(eq_of_beq hbeq : key a = kk)]
    · refine ⟨[], (kk, grp) :: rest, ?_⟩
      dsimp only
      rw [if_neg hbeq]

lemma consecutive_runs_cons (x : Nat) (xs : List Nat) :
    ∃ r rs, consecutive_runs (x :: xs) = (x :: r) :: rs := by
  rw [consecutive_runs]
  rcases h : consecutive_runs xs with _ | ⟨r1, rest⟩
  · exact ⟨[], [], rfl⟩
  · rcases r1 with _ | ⟨y, grp⟩
    · exact ⟨[], [] :: rest, rfl⟩
    · by_cases hxy : x + 1 = y
      · refine ⟨y :: grp, rest, ?_⟩
        dsimp only
        rw [if_pos hxy]
      · refine ⟨[], (y :: grp) :: rest, ?_⟩
        dsimp only
        rw [if_neg hxy]

lemma groupby_chars_offset (c : List Nat) : ∀ k : Nat, List.Chain' (· < ·) c →
    (itertools_groupby (fun p => p.2) (chars_offset_from k c)).map
      (fun grp => (grp.1, grp.2.map Prod.fst))
      = runs_with_offsets k (consecutive_runs c) := by
  induction c with
  | nil => intro k _; rfl
  | cons x xs ih =>
    intro k hchain
    cases xs with
    | nil =>
      rw [chars_offset_from_cons]
      rfl
    | cons y ys =>
      have hxy : x < y := (List.chain'_cons.mp hchain).1
      have hchain' : List.Chain' (· < ·) (y :: ys) := (List.chain'_cons.mp hchain).2
      have ihx := ih (k + 1) hchain'
      obtain ⟨r0, rs0, hruns⟩ := consecutive_runs_cons y ys
      rw [chars_offset_from_cons] at ihx
      obtain ⟨G, R, hgb⟩ := itertools_groupby_cons (fun p : Nat × Int => p.2)
        (y, (y : Int) - ((k + 1 : Nat) : Int)) (chars_offset_from (k + 1 + 1) ys)
      rw [hgb, hruns] at ihx
      dsimp only at ihx
      rw [List.map_cons, runs_with_offsets] at ihx
      simp only [List.headD_cons, List.map_cons, List.length_cons] at ihx
      injection ihx with hhead htail
      have hG : G.map Prod.fst = r0 := by
        have := congrArg Prod.snd hhead
        simpa using this
      rw [chars_offset_from_cons, chars_offset_from_cons, itertools_groupby, hgb]
      dsimp only
      by_cases hadj : x + 1 = y
      · have hofs : ((x : Int) - (k : Int)) = ((y : Int) - ((k + 1 : Nat) : Int)) := by
          push_cast
          omega
        rw [if_pos (beq_iff_eq.mpr hofs)]
        rw [show consecutive_runs (x :: y :: ys) = (x :: y :: r0) :: rs0 from by
          rw [consecutive_runs, hruns]; dsimp only; rw [if_pos hadj]]
        rw [List.map_cons, runs_with_offsets]
        refine congrArg₂ List.cons ?_ ?_
        · simp only [List.headD_cons, List.map_cons]
          rw [hG]
          exact congrArg₂ Prod.mk hofs.symm rfl
        · rw [htail]
          congr 1
          simp only [List.length_cons]
          omega
      · have hofs : ((x : Int) - (k : Int)) ≠ ((y : Int) - ((k + 1 : Nat) : Int)) := by
          push_cast
          omega
        rw [if_neg (fun hc => hofs (beq_iff_eq.mp hc))]
        rw [show consecutive_runs (x :: y :: ys) = [x] :: (y :: r0) :: rs0 from by
          rw [consecutive_runs, hruns]; dsimp only; rw [if_neg hadj]]
        rw [List.map_cons, runs_with_offsets]
        refine congrArg₂ List.cons ?_ ?_
        · rfl
        · rw [List.map_cons, runs_with_offsets]
          refine congrArg₂ List.cons ?_ ?_
          · simp only [List.headD_cons]
            exact hhead
          · rw [htail]
            congr 1

lemma chars_offset_from_zero (c : List Nat) :
    chars_offset_from 0 c =
      (List.range c.length).map (fun index =>
        (c.getD index 0, (utf_8_encode (c.getD index 0) : Int) - (index : Int))) := by
  rw [chars_offset_from]
  apply List.map_congr_left
  intro i hi
  simp [utf_8_encode]

lemma group_chars_eq_runs (c : List Nat) (hchain : List.Chain' (· < ·) c) :
    group_chars c = runs_with_offsets 0 (consecutive_runs c) := by
  rw [group_chars, ← chars_offset_from_zero]
  exact groupby_chars_offset c 0 hchain

lemma chain_lt_range' (n : Nat) : ∀ a, List.Chain' (· < ·) (List.range' a n) := by
  induction n with
  | zero => intro a; exact List.chain'_nil
  | succ n ih =>
    intro a
    cases n with
    | zero => simp
    | succ m =>
      rw [List.range'_succ, List.range'_succ, List.chain'_cons]
      refine ⟨by omega, ?_⟩
      rw [← List.range'_succ]
      exact ih (a + 1)

lemma consecutive_runs_range' (N : Nat) : ∀ a, 1 ≤ N →
    consecutive_runs (List.range' a N) = [List.range' a N] := by
  induction N with
  | zero => intro a h; omega
  | succ N ih =>
    intro a _
    cases N with
    | zero => rfl
    | succ M =>
      have hx : consecutive_runs (List.range' (a + 1) (M + 1)) =
          [(a + 1) :: List.range' (a + 2) M] := by
        rw [ih (a + 1) (by omega), List.range'_succ]
      rw [List.range'_succ, consecutive_runs, hx]
      dsimp only
      rw [if_pos rfl, List.range'_succ]

lemma consecutive_runs_gaps (c : List Nat) (h : List.Chain' (fun a b => a + 1 < b) c) :
    consecutive_runs c = c.map (fun x => [x]) := by
  induction c with
  | nil => rfl
  | cons x xs ih =>
    cases xs with
    | nil => rfl
    | cons y ys =>
      have h1 : x + 1 < y := (List.chain'_cons.mp h).1
      have h2 := (List.chain'_cons.mp h).2
      have ihx : consecutive_runs (y :: ys) = [y] :: ys.map (fun x => [x]) := by
        rw [ih h2, List.map_cons]
      rw [consecutive_runs, ihx]
      dsimp only
      rw [if_neg (by omega), List.map_cons, List.map_cons, ← ihx, ih h2]

lemma foldl_min_const (t : List Nat) : ∀ h, (∀ x ∈ t, h ≤ x) → t.foldl Nat.min h = h := by
  induction t with
  | nil => intro h _; rfl
  | cons a t ih =>
    intro h hle
    have hmin : Nat.min h a = h := by
      exact Nat.min_eq_left (hle a (List.mem_cons_self a t))
    rw [List.foldl_cons, hmin]
    exact ih h (fun x hx => hle x (List.mem_cons_of_mem a hx))

lemma py_min_range' (a N : Nat) (h : 1 ≤ N) : py_min (List.range' a N) = a := by
  cases N with
  | zero => omega
  | succ M =>
    rw [List.range'_succ, py_min]
    apply foldl_min_const
    intro x hx
    have := List.mem_range'_1.mp hx
    omega

lemma py_max_range' (N : Nat) : ∀ a, 1 ≤ N → py_max (List.range' a N) = a + N - 1 := by
  induction N with
  | zero => intro a h; omega
  | succ M ih =>
    intro a _
    cases M with
    | zero => simp [List.range'_one, py_max]
    | succ K =>
      have hmax : Nat.max a (a + 1) = a + 1 := by
        exact Nat.max_eq_right (by omega : a ≤ a + 1)
      rw [List.range'_succ, py_max, List.range'_succ, List.foldl_cons, hmax]
      have hih := ih (a + 1) (by omega)
      rw [List.range'_succ, py_max] at hih
      rw [hih]
      omega

lemma getLast?_range' (N : Nat) : ∀ a, 1 ≤ N →
    (List.range' a N).getLast? = some (a + N - 1) := by
  induction N with
  | zero => intro a h; omega
  | succ M ih =>
    intro a _
    cases M with
    | zero => simp [List.range'_one]
    | succ K =>
      rw [List.range'_succ, List.range'_succ, List.getLast?_cons_cons, ← List.range'_succ]
      rw [ih (a + 1) (by omega)]
      congr 1
      omega

lemma getLastD_range' (N a : Nat) (h : 1 ≤ N) : (List.range' a N).getLastD 0 = a + N - 1 := by
  rw [List.getLastD_eq_getLast?, getLast?_range' N a h]
  rfl

lemma consecutive_runs_shape (c : List Nat) (hchain : List.Chain' (· < ·) c) :
    ∀ r ∈ consecutive_runs c, ∃ a n, 0 < n ∧ r = List.range' a n := by
  induction c with
  | nil => intro r hr; simp [consecutive_runs] at hr
  | cons x xs ih =>
    cases xs with
    | nil =>
      intro r hr
      simp only [consecutive_runs, List.mem_singleton] at hr
      exact ⟨x, 1, by omega, by simp [hr, List.range'_one]⟩
    | cons y ys =>
      have h1 : x < y := (List.chain'_cons.mp hchain).1
      have h2 := (List.chain'_cons.mp hchain).2
      obtain ⟨r0, rs0, hruns⟩ := consecutive_runs_cons y ys
      have ihx := ih h2
      rw [hruns] at ihx
      by_cases hadj : x + 1 = y
      · rw [show consecutive_runs (x :: y :: ys) = (x :: y :: r0) :: rs0 from by
          rw [consecutive_runs, hruns]; dsimp only; rw [if_pos hadj]]
        intro r hr
        rcases List.mem_cons.mp hr with hr | hr
        · obtain ⟨a, n, hn, hshape⟩ := ihx (y :: r0) (List.mem_cons_self _ _)
          cases n with
          | zero => omega
          | succ m =>
            rw [List.range'_succ] at hshape
            injection hshape with hya htl
            refine ⟨x, m + 1 + 1, by omega, ?_⟩
            rw [hr, htl, ← hya, List.range'_succ, hadj, List.range'_succ]
        · exact ihx r (List.mem_cons_of_mem _ hr)
      · rw [show consecutive_runs (x :: y :: ys) = [x] :: (y :: r0) :: rs0 from by
          rw [consecutive_runs, hruns]; dsimp only; rw [if_neg hadj]]
        intro r hr
        rcases List.mem_cons.mp hr with hr | hr
        · exact ⟨x, 1, by omega, by simp [hr, List.range'_one]⟩
        · exact ihx r hr

lemma groups_reduce_runs (rs : List (List Nat)) : ∀ k : Nat,
    (∀ r ∈ rs, ∃ a n, 0 < n ∧ r = List.range' a n) →
    groups_reduce (runs_with_offsets k rs) = collapse_runs k rs := by
  induction rs with
  | nil => intro k _; rfl
  | cons r rest ih =>
    intro k hr
    obtain ⟨a, n, hn, hshape⟩ := hr r (List.mem_cons_self _ _)
    rw [runs_with_offsets, collapse_runs, groups_reduce, List.map_cons]
    refine congrArg₂ List.cons ?_ ?_
    · dsimp only
      subst hshape
      refine congrArg₂ Prod.mk rfl (congrArg₂ Prod.mk ?_ ?_)
      · rw [py_min_range' a n hn]
        cases n with
        | zero => omega
        | succ m => rw [List.range'_succ]; rfl
      · rw [py_max_range' n a hn, getLastD_range' n a hn]
    · exact ih (k + r.length) (fun r' h' => hr r' (List.mem_cons_of_mem _ h'))

lemma collapse_runs_map_singleton (c : List Nat) : ∀ k : Nat,
    collapse_runs k (c.map (fun x => [x])) =
      (List.range c.length).map (fun i =>
        ((c.getD i 0 : Int) - ((k + i : Nat) : Int), c.getD i 0, c.getD i 0)) := by
  induction c with
  | nil => intro k; rfl
  | cons x xs ih =>
    intro k
    rw [List.map_cons, collapse_runs]
    simp only [List.length_cons, List.length_nil, Nat.zero_add]
    rw [List.range_succ_eq_map, List.map_cons, List.map_map]
    refine congrArg₂ List.cons ?_ ?_
    · simp
    · rw [ih (k + 1)]
      apply List.map_congr_left
      intro i hi
      simp only [Function.comp, List.getD_cons_succ, Prod.mk.injEq, true_and, and_true]
      push_cast
      ring

lemma groups_reduce_group_chars (c : List Nat) (hchain : List.Chain' (· < ·) c) :
    groups_reduce (group_chars c) = collapse_runs 0 (consecutive_runs c) := by
  rw [group_chars_eq_runs c hchain]
  exact groups_reduce_runs (consecutive_runs c) 0 (consecutive_runs_shape c hchain)

/-! ### Claim theorems -/

/-- C1: For every canonical glyph accepted by pack, and for every column and
every page of that column, the emitted byte has bit index `y` (0 = top of the
page) equal to the pixel at row `y` of that page — the least significant bit
of each byte is the topmost pixel of its page; the same byte appears at the
horizontal-mode position. -/
theorem packed_byte_lsb_topmost (g : List (List Nat)) (w h col page y : Nat)
    (hbits : ∀ row ∈ g, ∀ b ∈ row, b ≤ 1) (hmul : h % 8 = 0)
    (hcol : col < w) (hpage : page < h / 8) (hy : y < 8) :
    (Nat.testBit ((convert_to_ssd1306_format g w h false).getD (col * (h / 8) + page) 0) y
        = true
      ↔ (g.getD (page * 8 + y) []).getD col 0 = 1)
    ∧ (convert_to_ssd1306_format g w h true).getD (page * w + col) 0 =
      (convert_to_ssd1306_format g w h false).getD (col * (h / 8) + page) 0 := by
  constructor
  · rw [convert_false_getD g w h col page hcol hpage,
      page_byte_testBit g col page y (bitmap_getD_le_one g hbits)]
    constructor
    · rintro ⟨_, hp⟩
      exact hp
    · intro hp
      exact ⟨hy, hp⟩
  · rw [convert_true_getD g w h col page hcol hpage,
      convert_false_getD g w h col page hcol hpage]

/-- Witness for C1 at a concrete 1×8 glyph whose top pixel is lit. -/
theorem packed_byte_lsb_topmost_witness :
    (Nat.testBit ((convert_to_ssd1306_format [[1], [0], [0], [0], [0], [0], [0], [1]]
        1 8 false).getD 0 0) 0 = true
      ↔ (([[1], [0], [0], [0], [0], [0], [0], [1]] : List (List Nat)).getD 0 []).getD 0 0 = 1)
    ∧ (convert_to_ssd1306_format [[1], [0], [0], [0], [0], [0], [0], [1]] 1 8 true).getD 0 0 =
      (convert_to_ssd1306_format [[1], [0], [0], [0], [0], [0], [0], [1]] 1 8 false).getD 0 0 :=
  packed_byte_lsb_topmost [[1], [0], [0], [0], [0], [0], [0], [1]] 1 8 0 0 0
    (by decide) (by decide) (by decide) (by decide) (by decide)

/-- C2: In the default column-major mode the codec emits, for each column in
order, that column's `h/8` page bytes in page order; in horizontal mode it
emits, for each page in order, one byte per column across the width. -/
theorem pack_emission_order (g : List (List Nat)) (w h : Nat)
    (hw : 1 ≤ w) (hpos : 0 < h) (hmul : h % 8 = 0)
    (hlen : g.length = h) (hrows : ∀ row ∈ g, row.length = w) :
    convert_to_ssd1306_format g w h false =
      (List.range w).flatMap (fun col =>
        (List.range (h / 8)).map (fun page => page_byte g col page))
    ∧ convert_to_ssd1306_format g w h true =
      (List.range (h / 8)).flatMap (fun page =>
        (List.range w).map (fun col => page_byte g col page)) :=
  ⟨convert_false_eq g w h, convert_true_eq g w h⟩

/-- Witness for C2 at a concrete 2-column, 16-row glyph with four distinct
page bytes: column-major order is `[col0-page0, col0-page1, col1-page0,
col1-page1]`, horizontal order is `[col0-page0, col1-page0, col0-page1,
col1-page1]`. -/
theorem pack_emission_order_witness :
    convert_to_ssd1306_format
        [[1, 1], [0, 1], [0, 0], [0, 0], [0, 0], [0, 0], [0, 0], [0, 0],
         [0, 0], [1, 0], [0, 1], [0, 1], [0, 0], [0, 0], [0, 0], [0, 0]] 2 16 false =
      (List.range 2).flatMap (fun col =>
        (List.range (16 / 8)).map (fun page => page_byte
          [[1, 1], [0, 1], [0, 0], [0, 0], [0, 0], [0, 0], [0, 0], [0, 0],
           [0, 0], [1, 0], [0, 1], [0, 1], [0, 0], [0, 0], [0, 0], [0, 0]] col page))
    ∧ convert_to_ssd1306_format
        [[1, 1], [0, 1], [0, 0], [0, 0], [0, 0], [0, 0], [0, 0], [0, 0],
         [0, 0], [1, 0], [0, 1], [0, 1], [0, 0], [0, 0], [0, 0], [0, 0]] 2 16 true =
      (List.range (16 / 8)).flatMap (fun page =>
        (List.range 2).map (fun col => page_byte
          [[1, 1], [0, 1], [0, 0], [0, 0], [0, 0], [0, 0], [0, 0], [0, 0],
           [0, 0], [1, 0], [0, 1], [0, 1], [0, 0], [0, 0], [0, 0], [0, 0]] col page))
    ∧ convert_to_ssd1306_format
        [[1, 1], [0, 1], [0, 0], [0, 0], [0, 0], [0, 0], [0, 0], [0, 0],
         [0, 0], [1, 0], [0, 1], [0, 1], [0, 0], [0, 0], [0, 0], [0, 0]] 2 16 false =
      [1, 2, 3, 12]
    ∧ convert_to_ssd1306_format
        [[1, 1], [0, 1], [0, 0], [0, 0], [0, 0], [0, 0], [0, 0], [0, 0],
         [0, 0], [1, 0], [0, 1], [0, 1], [0, 0], [0, 0], [0, 0], [0, 0]] 2 16 true =
      [1, 3, 2, 12] :=
  ⟨(pack_emission_order _ 2 16 (by decide) (by decide) (by decide) (by decide) (by decide)).1,
   (pack_emission_order _ 2 16 (by decide) (by decide) (by decide) (by decide) (by decide)).2,
   by decide, by decide⟩

/-- C3: For every canonical glyph and both byte orderings, the inverse
transform applied to the pack output reproduces the original glyph
bit-for-bit. -/
theorem pack_round_trip (g : List (List Nat)) (w h : Nat)
    (hw : 1 ≤ w) (hpos : 0 < h) (hmul : h % 8 = 0)
    (hlen : g.length = h) (hrows : ∀ row ∈ g, row.length = w)
    (hbits : ∀ row ∈ g, ∀ b ∈ row, b ≤ 1) :
    unpack_ssd1306 (convert_to_ssd1306_format g w h false) w h false = g
    ∧ unpack_ssd1306 (convert_to_ssd1306_format g w h true) w h true = g :=
  ⟨unpack_convert g w h false hlen hrows hbits hmul,
   unpack_convert g w h true hlen hrows hbits hmul⟩

/-- Witness for C3 at a concrete 2×8 glyph. -/
theorem pack_round_trip_witness :
    unpack_ssd1306 (convert_to_ssd1306_format
        [[1, 0], [0, 1], [1, 1], [0, 0], [1, 0], [0, 0], [0, 1], [1, 1]] 2 8 false) 2 8 false =
      [[1, 0], [0, 1], [1, 1], [0, 0], [1, 0], [0, 0], [0, 1], [1, 1]]
    ∧ unpack_ssd1306 (convert_to_ssd1306_format
        [[1, 0], [0, 1], [1, 1], [0, 0], [1, 0], [0, 0], [0, 1], [1, 1]] 2 8 true) 2 8 true =
      [[1, 0], [0, 1], [1, 1], [0, 0], [1, 0], [0, 0], [0, 1], [1, 1]] :=
  pack_round_trip [[1, 0], [0, 1], [1, 1], [0, 0], [1, 0], [0, 0], [0, 1], [1, 1]] 2 8
    (by decide) (by decide) (by decide) (by decide) (by decide) (by decide)

/-- C4: For every bitmap and both orderings, the output byte sequence has
length exactly `width * height / 8` when the height is a multiple of 8. -/
theorem pack_output_length (g : List (List Nat)) (w h : Nat) (m : Bool)
    (hmul : h % 8 = 0) :
    (convert_to_ssd1306_format g w h m).length = w * h / 8 := by
  rw [convert_length, Nat.mul_div_assoc w (Nat.dvd_of_mod_eq_zero hmul)]

/-- Witness for C4 at a concrete 3×8 all-lit glyph in both modes. -/
theorem pack_output_length_witness :
    (convert_to_ssd1306_format (List.replicate 8 [1, 1, 1]) 3 8 false).length = 3 * 8 / 8
    ∧ (convert_to_ssd1306_format (List.replicate 8 [1, 1, 1]) 3 8 true).length = 3 * 8 / 8 :=
  ⟨pack_output_length (List.replicate 8 [1, 1, 1]) 3 8 false (by decide),
   pack_output_length (List.replicate 8 [1, 1, 1]) 3 8 true (by decide)⟩

/-- C5 counterexample: the conversion performs no validation at all — at
height 9 (not a multiple of 8) it succeeds, silently truncating to one page;
at width 0 and at height 0 it succeeds with empty output.  There is no
`InvalidHeightError` and no `InvalidDimensionError`. -/
theorem convert_no_validation_counterexample :
    convert_to_ssd1306_formatE [[1], [1], [1], [1], [1], [1], [1], [1], [1]] 1 9 false =
      Except.ok [255]
    ∧ convert_to_ssd1306_formatE [] 0 8 false = Except.ok []
    ∧ convert_to_ssd1306_formatE [[1], [1], [1], [1], [1], [1], [1], [1]] 1 0 false =
      Except.ok [] :=
  ⟨rfl, rfl, rfl⟩

/-- C5 amended: the conversion has no error paths of its own — whenever the
bitmap covers the stated dimensions (the only way any internal indexing could
raise `IndexError`), it returns normally, for every width and height
(including heights not divisible by 8 and zero dimensions), producing
`width * (height / 8)` bytes. -/
theorem convert_no_error_paths (g : List (List Nat)) (w h : Nat) (m : Bool)
    (hlen : h ≤ g.length) (hrows : ∀ row ∈ g, w ≤ row.length) :
    convert_to_ssd1306_formatE g w h m = Except.ok (convert_to_ssd1306_format g w h m)
    ∧ (convert_to_ssd1306_format g w h m).length = w * (h / 8) :=
  ⟨convertE_ok g w h m hlen hrows, convert_length g w h m⟩

/-- Witness for the amended C5 at height 9, width 1. -/
theorem convert_no_error_paths_witness :
    convert_to_ssd1306_formatE [[1], [1], [1], [1], [1], [1], [1], [1], [1]] 1 9 true =
      Except.ok (convert_to_ssd1306_format [[1], [1], [1], [1], [1], [1], [1], [1], [1]]
        1 9 true)
    ∧ (convert_to_ssd1306_format [[1], [1], [1], [1], [1], [1], [1], [1], [1]]
        1 9 true).length = 1 * (9 / 8) :=
  convert_no_error_paths [[1], [1], [1], [1], [1], [1], [1], [1], [1]] 1 9 true
    (by decide) (by decide)

/-- C6: On a strictly ascending codepoint sequence, `group_chars` +
`groups_reduce` partition the sequence into the maximal runs of equal
`offset[i] = c[i] - i` (equivalently, maximal runs of consecutive codepoints)
and collapse each run to `(offset, min(run), max(run))` in input order; a
fully contiguous run of length N yields exactly one group `(a, a, a+N-1)`,
and N pairwise non-adjacent codepoints yield N singleton groups. -/
theorem group_chars_maximal_runs :
    (∀ c : List Nat, List.Chain' (· < ·) c →
      groups_reduce (group_chars c) = collapse_runs 0 (consecutive_runs c))
    ∧ (∀ a N : Nat, 1 ≤ N →
      groups_reduce (group_chars (List.range' a N)) = [((a : Int), a, a + N - 1)])
    ∧ (∀ c : List Nat, List.Chain' (fun x y => x + 1 < y) c →
      groups_reduce (group_chars c) =
        (List.range c.length).map (fun i =>
          ((c.getD i 0 : Int) - (i : Int), c.getD i 0, c.getD i 0))) := by
  refine ⟨fun c hc => groups_reduce_group_chars c hc, ?_, ?_⟩
  · intro a N hN
    rw [groups_reduce_group_chars (List.range' a N) (chain_lt_range' N a),
      consecutive_runs_range' N a hN]
    cases N with
    | zero => omega
    | succ M =>
      rw [collapse_runs]
      have hh : (List.range' a (M + 1)).headD 0 = a := by
        rw [List.range'_succ]
        rfl
      have hl := getLastD_range' (M + 1) a (by omega)
      rw [hh, hl]
      simp [collapse_runs]
  · intro c hgap
    have hlt : List.Chain' (· < ·) c := hgap.imp (fun h => by omega)
    rw [groups_reduce_group_chars c hlt, consecutive_runs_gaps c hgap,
      collapse_runs_map_singleton c 0]
    apply List.map_congr_left
    intro i hi
    simp

/-- Witness for C6: a contiguous run of three codepoints collapses to one
group, three pairwise non-adjacent codepoints give three singleton groups,
and a mixed sequence matches the run partition. -/
theorem group_chars_maximal_runs_witness :
    groups_reduce (group_chars (List.range' 65 3)) = [((65 : Int), 65, 67)]
    ∧ groups_reduce (group_chars [65, 70, 80]) =
      [((65 : Int), 65, 65), ((69 : Int), 70, 70), ((78 : Int), 80, 80)]
    ∧ groups_reduce (group_chars [65, 66, 70]) =
      collapse_runs 0 (consecutive_runs [65, 66, 70]) := by
  refine ⟨?_, ?_, ?_⟩
  · rw [group_chars_maximal_runs.2.1 65 3 (by omega)]
    decide
  · rw [group_chars_maximal_runs.2.2 [65, 70, 80] (by simp)]
    decide
  · exact group_chars_maximal_runs.1 [65, 66, 70] (by simp)

/-- C7: `append_width` leaves the glyph unchanged when the target equals the
raw width, centres it with `d / 2` zero columns on the left and `d - d / 2`
on the right when the target exceeds the raw width by `d`, and fails when the
target is narrower than the glyph. -/
theorem append_width_centres (g : List (List Nat)) (w : Nat)
    (hne : g ≠ []) (hrows : ∀ row ∈ g, row.length = w) (hw1 : 1 ≤ w) :
    append_width g w = Except.ok g
    ∧ (∀ d : Nat, 0 < d →
        append_width g (w + d) =
          Except.ok (g.map (fun row =>
            List.replicate (d / 2) 0 ++ row ++ List.replicate (d - d / 2) 0)))
    ∧ (∀ t : Nat, t < w →
        append_width g t =
          Except.error "Glyph has bigger width than it should be appended!") := by
  have hlen : ¬g.length < 1 := by
    cases g with
    | nil => simp at hne
    | cons r rs => simp
  have hhead : (g.headD []).length = w := by
    cases g with
    | nil => simp at hne
    | cons r rs => exact hrows r (List.mem_cons_self r rs)
  refine ⟨?_, ?_, ?_⟩
  · rw [append_width]
    simp only [hhead, if_neg hlen]
    rw [if_neg (by omega : ¬w < 1), if_neg (by omega : ¬w < w)]
    simp
  · intro d hd
    rw [append_width]
    simp only [hhead, if_neg hlen]
    rw [if_neg (by omega : ¬w < 1), if_neg (by omega : ¬w + d < w),
      if_neg (by omega : ¬w + d = w), glyph_insert_empty_cols]
    have harith : w + d - w = d := by omega
    rw [harith]
  · intro t ht
    rw [append_width]
    simp only [hhead, if_neg hlen]
    rw [if_neg (by omega : ¬w < 1), if_pos ht]

/-- Witness for C7 at a 1-row, 2-column glyph, with `d = 3` (1 zero column
left, 2 right). -/
theorem append_width_centres_witness :
    append_width [[1, 0]] 2 = Except.ok [[1, 0]]
    ∧ append_width [[1, 0]] (2 + 3) =
      Except.ok ([[1, 0]].map (fun row =>
        List.replicate (3 / 2) 0 ++ row ++ List.replicate (3 - 3 / 2) 0))
    ∧ append_width [[1, 0]] 1 =
      Except.error "Glyph has bigger width than it should be appended!" := by
  have h := append_width_centres [[1, 0]] 2 (by decide) (by decide) (by decide)
  exact ⟨h.1, h.2.1 3 (by decide), h.2.2 1 (by decide)⟩

/-- C8 counterexample: with a supplied target height smaller than the bitmap,
`append_height` does not pad until the height equals the target — it returns
the bitmap unchanged, so the result height is 2, not the target 1. -/
theorem append_height_shrink_counterexample :
    append_height [[0], [0]] 1 = Except.ok [[0], [0]]
    ∧ ([[0], [0]] : List (List Nat)).length ≠ 1 :=
  ⟨rfl, by decide⟩

/-- C8 amended: provided the target height is at least the bitmap's height,
`append_height` prepends all-zero rows (of the first row's width) until the
height equals the target, keeping the original rows as the unchanged bottom
rows; on a bitmap with zero rows it fails. -/
theorem append_height_pads_top (g : List (List Nat)) (target_height : Nat)
    (hne : 1 ≤ g.length) (hle : g.length ≤ target_height) :
    append_height g target_height =
      Except.ok (List.replicate (target_height - g.length)
        (List.replicate (g.headD []).length 0) ++ g)
    ∧ (List.replicate (target_height - g.length)
        (List.replicate (g.headD []).length 0) ++ g).length = target_height
    ∧ append_height ([] : List (List Nat)) target_height =
      Except.error "Glyph is empty!" := by
  refine ⟨?_, ?_, rfl⟩
  · rw [append_height, if_neg (by omega)]
  · simp only [List.length_append, List.length_replicate]
    omega

/-- Witness for the amended C8 at a 1×1 bitmap padded to height 3. -/
theorem append_height_pads_top_witness :
    append_height [[1]] 3 =
      Except.ok (List.replicate (3 - ([[1]] : List (List Nat)).length)
        (List.replicate (([[1]] : List (List Nat)).headD []).length 0) ++ [[1]])
    ∧ (List.replicate (3 - ([[1]] : List (List Nat)).length)
        (List.replicate (([[1]] : List (List Nat)).headD []).length 0) ++ [[1]]).length = 3
    ∧ append_height ([] : List (List Nat)) 3 = Except.error "Glyph is empty!" :=
  append_height_pads_top [[1]] 3 (by decide) (by decide)

/-- C9 counterexample: for a singleton group the code emits an equality test
`if (min == x)`, not the claimed `if (min <= x && x <= max)` form — shown at
the spec's own example group `(0x41, 0x41, 0x41)`. -/
theorem c_gen_group_if_counterexample :
    c_gen_group_if ((65 : Int), 65, 65) "utf8_code"
        = "if (65 == utf8_code) \x7b return utf8_code - 65; \x7d;"
    ∧ c_gen_group_if ((65 : Int), 65, 65) "utf8_code"
        ≠ "if (65 <= utf8_code && utf8_code <= 65) \x7b return utf8_code - 65; \x7d;" :=
  ⟨rfl, by decide⟩

set_option maxRecDepth 4000 in
/-- C9 amended: the emitted lookup function contains one `if` statement per
group in group order — the range form `if (min <= x && x <= max)` when
`min < max` and the equality form `if (min == x)` when `min == max` —
followed by a `return 0` fallback; for the single-character set `{0x41}` the
generated function returns 0 at input 0x41 (via its group) and falls through
to the `return 0` default for every other input. -/
theorem lookup_func_generated :
    groups_reduce (group_chars [65]) = [((65 : Int), 65, 65)]
    ∧ c_src_write_lookup_func "font" (groups_reduce (group_chars [65])) =
      "static uint32_t ssd1306_font_get_glyph_index(uint32_t utf8_code) \x7b\n\tif (65 == utf8_code) \x7b return utf8_code - 65; \x7d;\n\treturn 0;\n\x7d\n\n"
    ∧ c_src_write_lookup_func "font" (groups_reduce (group_chars [65, 66, 70])) =
      "static uint32_t ssd1306_font_get_glyph_index(uint32_t utf8_code) \x7b\n\tif (65 <= utf8_code && utf8_code <= 66) \x7b return utf8_code - 65; \x7d;\n\tif (70 == utf8_code) \x7b return utf8_code - 68; \x7d;\n\treturn 0;\n\x7d\n\n"
    ∧ lookup_func_semantics (groups_reduce (group_chars [65])) 65 = some 0
    ∧ (∀ x : Nat, x ≠ 65 →
        lookup_func_semantics (groups_reduce (group_chars [65])) x = none) := by
  refine ⟨rfl, by decide, by decide, rfl, ?_⟩
  intro x hx
  have hg : groups_reduce (group_chars [65]) = [((65 : Int), 65, 65)] := rfl
  rw [hg, lookup_func_semantics, if_neg (by omega)]
  rfl

/-- Witness for the amended C9 at input 66: the generated function falls
through to the default. -/
theorem lookup_func_generated_witness :
    lookup_func_semantics (groups_reduce (group_chars [65])) 66 = none :=
  lookup_func_generated.2.2.2.2 66 (by decide)

/-- C10: For a bitmap whose height is at least 8 but not a multiple of 8, the
conversion raises no error: it totally returns exactly `width * (height / 8)`
bytes, and the bottom `height mod 8` rows never affect the output (any bitmap
agreeing on the rows above them packs identically). -/
theorem convert_unaligned_total (g g2 : List (List Nat)) (w h : Nat) (m : Bool)
    (hw : 1 ≤ w) (hh8 : 8 ≤ h) (hnm : h % 8 ≠ 0)
    (hlen : g.length = h) (hrows : ∀ row ∈ g, w ≤ row.length)
    (htr : g.take (8 * (h / 8)) = g2.take (8 * (h / 8))) :
    convert_to_ssd1306_formatE g w h m = Except.ok (convert_to_ssd1306_format g w h m)
    ∧ (convert_to_ssd1306_format g w h m).length = w * (h / 8)
    ∧ convert_to_ssd1306_format g w h m = convert_to_ssd1306_format g2 w h m :=
  ⟨convertE_ok g w h m (by omega) hrows, convert_length g w h m,
   convert_agree g g2 w h m htr⟩

/-- Witness for C10: a 1×9 bitmap converts without error to one byte, and
changing its ninth row does not change the output. -/
theorem convert_unaligned_total_witness :
    convert_to_ssd1306_formatE [[1], [1], [1], [1], [1], [1], [1], [1], [1]] 1 9 false =
      Except.ok (convert_to_ssd1306_format [[1], [1], [1], [1], [1], [1], [1], [1], [1]]
        1 9 false)
    ∧ (convert_to_ssd1306_format [[1], [1], [1], [1], [1], [1], [1], [1], [1]]
        1 9 false).length = 1 * (9 / 8)
    ∧ convert_to_ssd1306_format [[1], [1], [1], [1], [1], [1], [1], [1], [1]] 1 9 false =
      convert_to_ssd1306_format [[1], [1], [1], [1], [1], [1], [1], [1], [0]] 1 9 false :=
  convert_unaligned_total [[1], [1], [1], [1], [1], [1], [1], [1], [1]]
    [[1], [1], [1], [1], [1], [1], [1], [1], [0]] 1 9 false
    (by decide) (by decide) (by decide) (by decide) (by decide) (by decide)
